import Mathlib

/-!
Verification of the generic backend registry of gogpu/gpucontext
(src/registry.go).

The Go `Registry[T]` holds a map from string names to zero-argument
factories `func() T` plus a fixed priority list. We embed the map as an
association list whose order stands for one (arbitrary but fixed)
iteration order of the Go map; factories are pure functions `Unit → T`;
the Go zero value of `T` is `Inhabited.default`. Universal quantification
over registry states covers all map contents and all iteration orders.
-/

/-- A factory is a zero-argument constructor, Go `func() T`. -/
def Factory (T : Type) : Type := Unit → T

/-- The registry state: the `factories` map (as an association list) and
the `priority` list fixed at construction (src/registry.go lines 20-24). -/
structure Registry (T : Type) : Type where
  factories : List (String × Factory T)
  priority : List String

/-- Go map lookup `r.factories[name]`: first entry with the given key. -/
def lookupFactory {T : Type} : List (String × Factory T) → String → Option (Factory T)
  | [], _ => none
  | (k, f) :: rest, name => if k = name then some f else lookupFactory rest name

/-- Go map store `r.factories[name] = factory`: replace in place when the
key is present, append when it is absent. -/
def insertFactory {T : Type} : List (String × Factory T) → String → Factory T → List (String × Factory T)
  | [], name, factory => [(name, factory)]
  | (k, f) :: rest, name, factory =>
      if k = name then (name, factory) :: rest
      else (k, f) :: insertFactory rest name factory

/-- Go map delete `delete(r.factories, name)`: drop every entry with the key. -/
def deleteFactory {T : Type} : List (String × Factory T) → String → List (String × Factory T)
  | [], _ => []
  | (k, f) :: rest, name =>
      if k = name then deleteFactory rest name
      else (k, f) :: deleteFactory rest name

/-- `NewRegistry` (src/registry.go lines 43-53) with the priority list of a
`WithPriority` option (empty list when the option is absent): an empty
factories map and the given priority order. -/
def NewRegistry (T : Type) (priority : List String) : Registry T :=
  { factories := [], priority := priority }

/-- `Register` (src/registry.go lines 58-62): store the factory under the
name, replacing any existing entry. -/
def Registry.Register {T : Type} (r : Registry T) (name : String) (factory : Factory T) : Registry T :=
  { r with factories := insertFactory r.factories name factory }

/-- `Unregister` (src/registry.go lines 66-70): remove the entry for the
name, a no-op when absent. -/
def Registry.Unregister {T : Type} (r : Registry T) (name : String) : Registry T :=
  { r with factories := deleteFactory r.factories name }

/-- `Get` (src/registry.go lines 75-85): invoke the factory registered
under the name, or return the zero value when absent. -/
def Registry.Get {T : Type} [Inhabited T] (r : Registry T) (name : String) : T :=
  match lookupFactory r.factories name with
  | some factory => factory ()
  | none => default

/-- `Has` (src/registry.go lines 89-94): whether the name is registered. -/
def Registry.Has {T : Type} (r : Registry T) (name : String) : Bool :=
  (lookupFactory r.factories name).isSome

/-- The two loops of `Best` (src/registry.go lines 99-117): scan the
priority list, invoking the first registered name; otherwise fall back to
the first entry of the map iteration; otherwise the zero value. -/
def bestAux {T : Type} [Inhabited T] (factories : List (String × Factory T)) : List String → T
  | [] =>
      match factories with
      | [] => default
      | (_, factory) :: _ => factory ()
  | name :: rest =>
      match lookupFactory factories name with
      | some factory => factory ()
      | none => bestAux factories rest

/-- `Best` (src/registry.go lines 99-117). -/
def Registry.Best {T : Type} [Inhabited T] (r : Registry T) : T :=
  bestAux r.factories r.priority

/-- The two loops of `BestName` (src/registry.go lines 122-139): same scan
as `Best` but returning the chosen name, with empty string as fallback. -/
def bestNameAux {T : Type} (factories : List (String × Factory T)) : List String → String
  | [] =>
      match factories with
      | [] => ""
      | (name, _) :: _ => name
  | name :: rest =>
      if (lookupFactory factories name).isSome then name else bestNameAux factories rest

/-- `BestName` (src/registry.go lines 122-139). -/
def Registry.BestName {T : Type} (r : Registry T) : String :=
  bestNameAux r.factories r.priority

/-- `Available` (src/registry.go lines 143-152): all registered names. -/
def Registry.Available {T : Type} (r : Registry T) : List String :=
  r.factories.map Prod.fst

/-- `Count` (src/registry.go lines 156-160): number of registered factories. -/
def Registry.Count {T : Type} (r : Registry T) : Nat :=
  r.factories.length

/-- Well-formedness of the embedded map: keys are distinct, as in a Go map.
Holds for every state reachable from `NewRegistry`. -/
def Registry.WF {T : Type} (r : Registry T) : Prop :=
  (r.factories.map Prod.fst).Nodup

/-- Scan a priority list for the first name registered in the map. -/
def findRegistered {T : Type} (l : List (String × Factory T)) : List String → Option String
  | [] => none
  | n :: rest => if (lookupFactory l n).isSome then some n else findRegistered l rest

/-- The first name of the priority list that is registered, if any:
the name selected by step 1 of the `Best` algorithm. -/
def firstRegisteredPriority {T : Type} (r : Registry T) : Option String :=
  findRegistered r.factories r.priority

/-- `Best` with the fallback range-loop iteration order made explicit: Go
map iteration order is not guaranteed to repeat from one range loop to the
next, so the order `ord` observed by the fallback loop at
src/registry.go line 111 is a per-call parameter (any permutation of the
map entries). The priority scan uses only map lookups and does not depend
on it. -/
def bestAuxOrd {T : Type} [Inhabited T] (l ord : List (String × Factory T)) : List String → T
  | [] =>
      match ord with
      | [] => default
      | (_, factory) :: _ => factory ()
  | name :: rest =>
      match lookupFactory l name with
      | some factory => factory ()
      | none => bestAuxOrd l ord rest

/-- `BestName` with the fallback range-loop iteration order at
src/registry.go line 134 made explicit, as in `bestAuxOrd`. -/
def bestNameAuxOrd {T : Type} (l ord : List (String × Factory T)) : List String → String
  | [] =>
      match ord with
      | [] => ""
      | (name, _) :: _ => name
  | name :: rest =>
      if (lookupFactory l name).isSome then name else bestNameAuxOrd l ord rest

/-- One call of `Best` (src/registry.go lines 99-117) whose fallback loop
observes the iteration order `ord`. -/
def Registry.BestOrd {T : Type} [Inhabited T] (r : Registry T)
    (ord : List (String × Factory T)) : T :=
  bestAuxOrd r.factories ord r.priority

/-- One call of `BestName` (src/registry.go lines 122-139) whose fallback
loop observes the iteration order `ord`. -/
def Registry.BestNameOrd {T : Type} (r : Registry T)
    (ord : List (String × Factory T)) : String :=
  bestNameAuxOrd r.factories ord r.priority

section Helpers

variable {T : Type}

theorem lookupFactory_nil (name : String) :
    lookupFactory ([] : List (String × Factory T)) name = none := rfl

theorem mem_keys_iff_lookup_isSome (l : List (String × Factory T)) (m : String) :
    m ∈ l.map Prod.fst ↔ (lookupFactory l m).isSome := by
  induction l with
  | nil => simp [lookupFactory]
  | cons hd tl ih =>
      obtain ⟨k, f⟩ := hd
      by_cases hk : k = m
      · subst hk
        simp [lookupFactory]
      · simp [lookupFactory, hk, ih, Ne.symm hk]

theorem lookup_insert_self (l : List (String × Factory T)) (n : String) (f : Factory T) :
    lookupFactory (insertFactory l n f) n = some f := by
  induction l with
  | nil => simp [insertFactory, lookupFactory]
  | cons hd tl ih =>
      obtain ⟨k, g⟩ := hd
      by_cases hk : k = n
      · simp [insertFactory, hk, lookupFactory]
      · simp [insertFactory, hk, lookupFactory, ih]

theorem lookup_insert_ne (l : List (String × Factory T)) (n m : String) (f : Factory T)
    (h : m ≠ n) : lookupFactory (insertFactory l n f) m = lookupFactory l m := by
  induction l with
  | nil => simp [insertFactory, lookupFactory, Ne.symm h]
  | cons hd tl ih =>
      obtain ⟨k, g⟩ := hd
      by_cases hk : k = n
      · subst hk
        simp [insertFactory, lookupFactory, Ne.symm h, h]
      · by_cases hm : k = m
        · simp [insertFactory, hk, lookupFactory, hm, h]
        · simp [insertFactory, hk, lookupFactory, hm, ih]

theorem insert_insert (l : List (String × Factory T)) (n : String) (f g : Factory T) :
    insertFactory (insertFactory l n f) n g = insertFactory l n g := by
  induction l with
  | nil => simp [insertFactory]
  | cons hd tl ih =>
      obtain ⟨k, v⟩ := hd
      by_cases hk : k = n
      · simp [insertFactory, hk]
      · simp [insertFactory, hk, ih]

theorem lookup_delete_self (l : List (String × Factory T)) (n : String) :
    lookupFactory (deleteFactory l n) n = none := by
  induction l with
  | nil => simp [deleteFactory, lookupFactory]
  | cons hd tl ih =>
      obtain ⟨k, f⟩ := hd
      by_cases hk : k = n
      · simp [deleteFactory, hk, ih]
      · simp [deleteFactory, hk, lookupFactory, ih]

theorem lookup_delete_ne (l : List (String × Factory T)) (n m : String)
    (h : m ≠ n) : lookupFactory (deleteFactory l n) m = lookupFactory l m := by
  induction l with
  | nil => simp [deleteFactory]
  | cons hd tl ih =>
      obtain ⟨k, f⟩ := hd
      by_cases hk : k = n
      · subst hk
        simp [deleteFactory, lookupFactory, Ne.symm h, ih]
      · by_cases hm : k = m
        · simp [deleteFactory, hk, lookupFactory, hm, h]
        · simp [deleteFactory, hk, lookupFactory, hm, ih]

theorem delete_of_lookup_none (l : List (String × Factory T)) (n : String)
    (h : lookupFactory l n = none) : deleteFactory l n = l := by
  induction l with
  | nil => simp [deleteFactory]
  | cons hd tl ih =>
      obtain ⟨k, f⟩ := hd
      by_cases hk : k = n
      · subst hk
        simp [lookupFactory] at h
      · simp [lookupFactory, hk] at h
        simp [deleteFactory, hk, ih h]

theorem mem_keys_insert (l : List (String × Factory T)) (n m : String) (f : Factory T) :
    m ∈ (insertFactory l n f).map Prod.fst ↔ m ∈ l.map Prod.fst ∨ m = n := by
  induction l with
  | nil => simp [insertFactory]
  | cons hd tl ih =>
      obtain ⟨k, g⟩ := hd
      by_cases hk : k = n
      · subst hk
        simp [insertFactory]
        tauto
      · simp [insertFactory, hk, ih]
        tauto

theorem nodup_keys_insert (l : List (String × Factory T)) (n : String) (f : Factory T)
    (h : (l.map Prod.fst).Nodup) : ((insertFactory l n f).map Prod.fst).Nodup := by
  induction l with
  | nil => simp [insertFactory]
  | cons hd tl ih =>
      obtain ⟨k, g⟩ := hd
      simp only [List.map_cons, List.nodup_cons] at h
      by_cases hk : k = n
      · subst hk
        simpa [insertFactory, List.nodup_cons] using h
      · have hmem : k ∉ (insertFactory tl n f).map Prod.fst := by
          rw [mem_keys_insert]
          rintro (hin | rfl)
          · exact h.1 hin
          · exact hk rfl
        simp only [insertFactory, hk, if_false, List.map_cons, List.nodup_cons]
        exact ⟨hmem, ih h.2⟩

theorem mem_keys_delete (l : List (String × Factory T)) (n m : String) :
    m ∈ (deleteFactory l n).map Prod.fst → m ∈ l.map Prod.fst := by
  induction l with
  | nil => simp [deleteFactory]
  | cons hd tl ih =>
      obtain ⟨k, g⟩ := hd
      by_cases hk : k = n
      · simp only [deleteFactory, hk, if_true, List.map_cons]
        intro h
        exact List.mem_cons_of_mem _ (ih h)
      · simp only [deleteFactory, hk, if_false, List.map_cons, List.mem_cons]
        rintro (rfl | h)
        · exact Or.inl rfl
        · exact Or.inr (ih h)

theorem nodup_keys_delete (l : List (String × Factory T)) (n : String)
    (h : (l.map Prod.fst).Nodup) : ((deleteFactory l n).map Prod.fst).Nodup := by
  induction l with
  | nil => simp [deleteFactory]
  | cons hd tl ih =>
      obtain ⟨k, g⟩ := hd
      simp only [List.map_cons, List.nodup_cons] at h
      by_cases hk : k = n
      · simp only [deleteFactory, hk, if_true]
        exact ih h.2
      · simp only [deleteFactory, hk, if_false, List.map_cons, List.nodup_cons]
        exact ⟨fun hmem => h.1 (mem_keys_delete tl n k hmem), ih h.2⟩

theorem length_delete (l : List (String × Factory T)) (n : String)
    (hnd : (l.map Prod.fst).Nodup) (h : (lookupFactory l n).isSome) :
    (deleteFactory l n).length + 1 = l.length := by
  induction l with
  | nil => simp [lookupFactory] at h
  | cons hd tl ih =>
      obtain ⟨k, g⟩ := hd
      simp only [List.map_cons, List.nodup_cons] at hnd
      by_cases hk : k = n
      · subst hk
        have hnone : lookupFactory tl k = none := by
          cases hlk : lookupFactory tl k with
          | none => rfl
          | some f =>
              exfalso
              exact hnd.1 ((mem_keys_iff_lookup_isSome tl k).2 (by simp [hlk]))
        simp [deleteFactory, delete_of_lookup_none tl k hnone]
      · simp only [lookupFactory, hk, if_false] at h
        simp [deleteFactory, hk, ih hnd.2 h]

end Helpers

section BestHelpers

variable {T : Type}

theorem bestAux_empty_factories [Inhabited T] (pr : List String) :
    bestAux ([] : List (String × Factory T)) pr = default := by
  induction pr with
  | nil => rfl
  | cons p ps ih => simp [bestAux, lookupFactory, ih]

theorem bestNameAux_empty_factories (pr : List String) :
    bestNameAux ([] : List (String × Factory T)) pr = "" := by
  induction pr with
  | nil => rfl
  | cons p ps ih => simp [bestNameAux, lookupFactory, ih]

theorem bestAux_of_find_some [Inhabited T] (l : List (String × Factory T)) (pr : List String)
    (n : String) (h : findRegistered l pr = some n) :
    ∃ f, lookupFactory l n = some f ∧ bestAux l pr = f () := by
  induction pr with
  | nil => simp [findRegistered] at h
  | cons p ps ih =>
      cases hlp : lookupFactory l p with
      | some f =>
          rw [findRegistered, hlp] at h
          simp at h
          subst h
          exact ⟨f, hlp, by simp [bestAux, hlp]⟩
      | none =>
          rw [findRegistered, hlp] at h
          simp at h
          obtain ⟨f, hf, hb⟩ := ih h
          exact ⟨f, hf, by simp [bestAux, hlp, hb]⟩

theorem findRegistered_eq_none [Inhabited T] (l : List (String × Factory T)) (pr : List String)
    (h : findRegistered l pr = none) : ∀ p ∈ pr, lookupFactory l p = none := by
  induction pr with
  | nil => simp
  | cons p ps ih =>
      cases hlp : lookupFactory l p with
      | some f => rw [findRegistered, hlp] at h; simp at h
      | none =>
          rw [findRegistered, hlp] at h
          simp at h
          intro q hq
          rcases List.mem_cons.1 hq with rfl | hq
          · exact hlp
          · exact ih h q hq

theorem bestAux_of_no_hit [Inhabited T] (l : List (String × Factory T)) (pr : List String)
    (h : ∀ p ∈ pr, lookupFactory l p = none) : bestAux l pr = bestAux l [] := by
  induction pr with
  | nil => rfl
  | cons p ps ih =>
      have hp := h p (List.mem_cons_self _ _)
      simp only [bestAux, hp]
      exact ih (fun q hq => h q (List.mem_cons_of_mem _ hq))

theorem bestName_best_agree [Inhabited T] (l : List (String × Factory T)) (pr : List String)
    (h : l ≠ []) :
    ∃ f, lookupFactory l (bestNameAux l pr) = some f ∧ bestAux l pr = f () := by
  induction pr with
  | nil =>
      cases l with
      | nil => exact absurd rfl h
      | cons hd tl =>
          obtain ⟨n, f⟩ := hd
          exact ⟨f, by simp [bestNameAux, lookupFactory], by simp [bestAux]⟩
  | cons p ps ih =>
      cases hlp : lookupFactory l p with
      | some f =>
          refine ⟨f, ?_, ?_⟩
          · simp [bestNameAux, hlp]
          · simp [bestAux, hlp]
      | none =>
          obtain ⟨f, hf, hb⟩ := ih
          refine ⟨f, ?_, ?_⟩
          · simp [bestNameAux, hlp, hf]
          · simp [bestAux, hlp, hb]

end BestHelpers

section OrderHelpers

variable {T : Type}

theorem lookup_of_mem_nodup (l : List (String × Factory T)) (n : String) (f : Factory T)
    (hnd : (l.map Prod.fst).Nodup) (hmem : (n, f) ∈ l) : lookupFactory l n = some f := by
  induction l with
  | nil => simp at hmem
  | cons hd tl ih =>
      obtain ⟨k, g⟩ := hd
      simp only [List.map_cons, List.nodup_cons] at hnd
      rcases List.mem_cons.1 hmem with heq | hmem2
      · cases heq
        simp [lookupFactory]
      · have hk : k ≠ n := by
          rintro rfl
          exact hnd.1 (List.mem_map.2 ⟨(k, f), hmem2, rfl⟩)
        simp [lookupFactory, hk, ih hnd.2 hmem2]

theorem bestAux_eq_ord [Inhabited T] (l : List (String × Factory T)) (pr : List String) :
    bestAux l pr = bestAuxOrd l l pr := by
  induction pr with
  | nil => rfl
  | cons p ps ih =>
      cases hlp : lookupFactory l p <;> simp [bestAux, bestAuxOrd, hlp, ih]

theorem bestNameAux_eq_ord (l : List (String × Factory T)) (pr : List String) :
    bestNameAux l pr = bestNameAuxOrd l l pr := by
  induction pr with
  | nil => rfl
  | cons p ps ih =>
      cases hlp : lookupFactory l p <;> simp [bestNameAux, bestNameAuxOrd, hlp, ih]

theorem bestAuxOrd_of_find_some [Inhabited T] (l ord : List (String × Factory T))
    (pr : List String) (n : String) (h : findRegistered l pr = some n) :
    ∃ f, lookupFactory l n = some f ∧ bestAuxOrd l ord pr = f () := by
  induction pr with
  | nil => simp [findRegistered] at h
  | cons p ps ih =>
      cases hlp : lookupFactory l p with
      | some f =>
          rw [findRegistered, hlp] at h
          simp at h
          subst h
          exact ⟨f, hlp, by simp [bestAuxOrd, hlp]⟩
      | none =>
          rw [findRegistered, hlp] at h
          simp at h
          obtain ⟨f, hf, hb⟩ := ih h
          exact ⟨f, hf, by simp [bestAuxOrd, hlp, hb]⟩

theorem bestNameAuxOrd_of_find_some (l ord : List (String × Factory T))
    (pr : List String) (n : String) (h : findRegistered l pr = some n) :
    bestNameAuxOrd l ord pr = n := by
  induction pr with
  | nil => simp [findRegistered] at h
  | cons p ps ih =>
      cases hlp : lookupFactory l p with
      | some f =>
          rw [findRegistered, hlp] at h
          simp at h
          subst h
          simp [bestNameAuxOrd, hlp]
      | none =>
          rw [findRegistered, hlp] at h
          simp at h
          simp [bestNameAuxOrd, hlp, ih h]

theorem bestOrd_same_order_agree [Inhabited T] (l ord : List (String × Factory T))
    (pr : List String) (hnd : (l.map Prod.fst).Nodup) (hne : l ≠ [])
    (hperm : ord.Perm l) :
    ∃ f, lookupFactory l (bestNameAuxOrd l ord pr) = some f ∧ bestAuxOrd l ord pr = f () := by
  induction pr with
  | nil =>
      cases hord : ord with
      | nil =>
          subst hord
          exact absurd (List.Perm.nil_eq hperm).symm hne
      | cons hd rest =>
          obtain ⟨n0, f0⟩ := hd
          have hmem : (n0, f0) ∈ l := hperm.mem_iff.1 (hord ▸ List.mem_cons_self _ _)
          exact ⟨f0, by simp [bestNameAuxOrd, hord, lookup_of_mem_nodup l n0 f0 hnd hmem],
            by simp [bestAuxOrd, hord]⟩
  | cons p ps ih =>
      cases hlp : lookupFactory l p with
      | some f =>
          exact ⟨f, by simp [bestNameAuxOrd, hlp], by simp [bestAuxOrd, hlp]⟩
      | none =>
          obtain ⟨f, hf, hb⟩ := ih
          exact ⟨f, by simp [bestNameAuxOrd, hlp, hf], by simp [bestAuxOrd, hlp, hb]⟩

theorem bestNameAuxOrd_empty (pr : List String) :
    bestNameAuxOrd ([] : List (String × Factory T)) [] pr = "" := by
  induction pr with
  | nil => rfl
  | cons p ps ih => simp [bestNameAuxOrd, lookupFactory, ih]

end OrderHelpers

/-- Claim C1: Best follows the three-step selection algorithm. Step 1: if
some priority name is registered, Best returns the output of the factory
of the first such name. Step 2: if no priority name is registered and the
registry is non-empty, Best returns the output of some registered factory.
Step 3: if nothing is registered, Best returns the zero value. In
particular, with priority [p1, p2, p3], p1 unregistered and p2 registered
with factory f2, Best returns the output of f2. -/
theorem best_three_step_selection {T : Type} [Inhabited T] (r : Registry T) :
    (∀ n, firstRegisteredPriority r = some n →
      ∃ f, lookupFactory r.factories n = some f ∧ r.Best = f ()) ∧
    (firstRegisteredPriority r = none → r.factories ≠ [] →
      ∃ n f, lookupFactory r.factories n = some f ∧ r.Best = f ()) ∧
    (r.factories = [] → r.Best = default) ∧
    (∀ p1 p2 p3 f2, r.priority = [p1, p2, p3] → r.Has p1 = false →
      lookupFactory r.factories p2 = some f2 → r.Best = f2 ()) := by
  refine ⟨?_, ?_, ?_, ?_⟩
  · intro n h
    exact bestAux_of_find_some r.factories r.priority n h
  · intro hnone hne
    have hall : ∀ p ∈ r.priority, lookupFactory r.factories p = none :=
      findRegistered_eq_none r.factories r.priority hnone
    have hfall := bestAux_of_no_hit r.factories r.priority hall
    cases hl : r.factories with
    | nil => exact absurd hl hne
    | cons hd tl =>
        obtain ⟨n, f⟩ := hd
        refine ⟨n, f, by simp [hl, lookupFactory], ?_⟩
        show bestAux r.factories r.priority = f ()
        rw [hfall, hl]
        simp [bestAux]
  · intro hl
    show bestAux r.factories r.priority = default
    rw [hl]
    exact bestAux_empty_factories r.priority
  · intro p1 p2 p3 f2 hpr h1 h2
    have hn1 : lookupFactory r.factories p1 = none := by
      unfold Registry.Has at h1
      cases hx : lookupFactory r.factories p1 with
      | none => rfl
      | some g => rw [hx] at h1; simp at h1
    show bestAux r.factories r.priority = f2 ()
    rw [hpr]
    simp [bestAux, hn1, h2]

/-- Witness for C1 at a concrete registry: priority [p1, p2, p3], only p2
and p3 registered, Best returns the output of the factory of p2. -/
theorem best_three_step_selection_witness :
    Registry.Best
      { factories := [("p2", fun _ => (2 : Nat)), ("p3", fun _ => 3)],
        priority := ["p1", "p2", "p3"] } = 2 := by
  have h := best_three_step_selection
    (T := Nat)
    { factories := [("p2", fun _ => (2 : Nat)), ("p3", fun _ => 3)],
      priority := ["p1", "p2", "p3"] }
  exact h.2.2.2 "p1" "p2" "p3" (fun _ => 2) rfl (by rfl) (by rfl)

/-- Claim C2: a registry with no registered factories yields the zero value
from Get and Best, false from Has, the empty string from BestName, zero
from Count and the empty list from Available, never an error (all
operations are total). -/
theorem empty_registry_all_operations {T : Type} [Inhabited T] (r : Registry T)
    (h : r.factories = []) :
    (∀ n, r.Get n = default) ∧ r.Best = default ∧ (∀ n, r.Has n = false) ∧
    r.BestName = "" ∧ r.Count = 0 ∧ r.Available = [] := by
  refine ⟨?_, ?_, ?_, ?_, ?_, ?_⟩
  · intro n
    simp [Registry.Get, h, lookupFactory]
  · show bestAux r.factories r.priority = default
    rw [h]
    exact bestAux_empty_factories r.priority
  · intro n
    simp [Registry.Has, h, lookupFactory]
  · show bestNameAux r.factories r.priority = ""
    rw [h]
    exact bestNameAux_empty_factories r.priority
  · simp [Registry.Count, h]
  · simp [Registry.Available, h]

/-- Witness for C2 at a concrete empty registry with a non-empty priority
list: every operation yields its zero result. -/
theorem empty_registry_all_operations_witness :
    (∀ n, Registry.Get { factories := ([] : List (String × Factory Nat)), priority := ["vulkan"] } n = default) ∧
    Registry.Best { factories := ([] : List (String × Factory Nat)), priority := ["vulkan"] } = default ∧
    (∀ n, Registry.Has { factories := ([] : List (String × Factory Nat)), priority := ["vulkan"] } n = false) ∧
    Registry.BestName { factories := ([] : List (String × Factory Nat)), priority := ["vulkan"] } = "" ∧
    Registry.Count { factories := ([] : List (String × Factory Nat)), priority := ["vulkan"] } = 0 ∧
    Registry.Available { factories := ([] : List (String × Factory Nat)), priority := ["vulkan"] } = [] :=
  empty_registry_all_operations { factories := [], priority := ["vulkan"] } rfl

/-- Claim C3: Register is last-write-wins and never errors. Registering f
then g under the same name leaves the registry in exactly the state of
registering only g, so Get of that name returns the output of g, and Best
returns the output of g whenever that name is the selected one. -/
theorem register_last_write_wins {T : Type} [Inhabited T] (r : Registry T) (n : String)
    (f g : Factory T) :
    (r.Register n f).Register n g = r.Register n g ∧
    ((r.Register n f).Register n g).Get n = g () ∧
    (firstRegisteredPriority ((r.Register n f).Register n g) = some n →
      ((r.Register n f).Register n g).Best = g ()) := by
  refine ⟨?_, ?_, ?_⟩
  · simp [Registry.Register, insert_insert]
  · simp [Registry.Get, Registry.Register, lookup_insert_self]
  · intro h
    obtain ⟨f0, hf0, hb⟩ := bestAux_of_find_some _ _ n h
    have : lookupFactory ((r.Register n f).Register n g).factories n = some g := by
      simp [Registry.Register, lookup_insert_self]
    rw [this] at hf0
    cases hf0
    exact hb

/-- Witness for C3: registering 1 then 2 under the same prioritized name
gives the same state as registering only 2, and Get and Best return 2. -/
theorem register_last_write_wins_witness :
    ((NewRegistry Nat ["a"]).Register "a" (fun _ => 1)).Register "a" (fun _ => 2) =
      (NewRegistry Nat ["a"]).Register "a" (fun _ => 2) ∧
    (((NewRegistry Nat ["a"]).Register "a" (fun _ => 1)).Register "a" (fun _ => 2)).Get "a" = 2 ∧
    (((NewRegistry Nat ["a"]).Register "a" (fun _ => 1)).Register "a" (fun _ => 2)).Best = 2 := by
  have h := register_last_write_wins (NewRegistry Nat ["a"]) "a" (fun _ => 1) (fun _ => 2)
  exact ⟨h.1, h.2.1, h.2.2 rfl⟩

/-- Claim C4: Get returns the output of the factory registered under the
name when present, and the zero value when absent; it is a total function,
so absence never surfaces as an error. -/
theorem get_factory_or_zero {T : Type} [Inhabited T] (r : Registry T) (name : String) :
    (∀ f, lookupFactory r.factories name = some f → r.Get name = f ()) ∧
    (lookupFactory r.factories name = none → r.Get name = default) := by
  constructor
  · intro f hf
    simp [Registry.Get, hf]
  · intro hf
    simp [Registry.Get, hf]

/-- Witness for C4: Get on a registered name returns the factory output;
Get on an absent name returns the zero value. -/
theorem get_factory_or_zero_witness :
    Registry.Get { factories := [("x", fun _ => (5 : Nat))], priority := [] } "x" = 5 ∧
    Registry.Get { factories := [("x", fun _ => (5 : Nat))], priority := [] } "y" = default := by
  constructor
  · exact (get_factory_or_zero { factories := [("x", fun _ => (5 : Nat))], priority := [] } "x").1
      (fun _ => 5) rfl
  · exact (get_factory_or_zero { factories := [("x", fun _ => (5 : Nat))], priority := [] } "y").2 rfl

/-- Claim C5 counterexample: cross-call agreement of Best and BestName
fails on the fallback path. Go map iteration order is not guaranteed to
repeat between the independent range loops of Best (src/registry.go line
111) and BestName (line 134). In the registry with no priority list and
entries a (output 1) and b (output 2), the order with b first is a valid
iteration order (a permutation of the entries); a BestName call observing
the order with a first returns a, whose registered factory outputs 1, yet
a Best call observing the order with b first returns 2 — so no factory
registered under the returned name produced the returned value. -/
theorem bestName_best_fallback_counterexample :
    ([("b", fun _ => (2 : Nat)), ("a", fun _ => 1)] : List (String × Factory Nat)).Perm
      (Registry.mk [("a", fun _ => (1 : Nat)), ("b", fun _ => 2)] []).factories ∧
    Registry.BestNameOrd (Registry.mk [("a", fun _ => (1 : Nat)), ("b", fun _ => 2)] [])
      (Registry.mk [("a", fun _ => (1 : Nat)), ("b", fun _ => 2)] []).factories = "a" ∧
    Registry.Get (Registry.mk [("a", fun _ => (1 : Nat)), ("b", fun _ => 2)] []) "a" = 1 ∧
    Registry.BestOrd (Registry.mk [("a", fun _ => (1 : Nat)), ("b", fun _ => 2)] [])
      [("b", fun _ => 2), ("a", fun _ => 1)] = 2 ∧
    ¬ ∃ f, lookupFactory
        (Registry.mk [("a", fun _ => (1 : Nat)), ("b", fun _ => 2)] []).factories
        (Registry.BestNameOrd (Registry.mk [("a", fun _ => (1 : Nat)), ("b", fun _ => 2)] [])
          (Registry.mk [("a", fun _ => (1 : Nat)), ("b", fun _ => 2)] []).factories) = some f ∧
      Registry.BestOrd (Registry.mk [("a", fun _ => (1 : Nat)), ("b", fun _ => 2)] [])
        [("b", fun _ => 2), ("a", fun _ => 1)] = f () := by
  refine ⟨List.Perm.swap _ _ _, rfl, rfl, rfl, ?_⟩
  rintro ⟨f, hf, hb⟩
  have hlook : lookupFactory
      (Registry.mk [("a", fun _ => (1 : Nat)), ("b", fun _ => 2)] []).factories
      (Registry.BestNameOrd (Registry.mk [("a", fun _ => (1 : Nat)), ("b", fun _ => 2)] [])
        (Registry.mk [("a", fun _ => (1 : Nat)), ("b", fun _ => 2)] []).factories) =
      some (fun _ => (1 : Nat)) := rfl
  rw [hlook] at hf
  injection hf with hf2
  subst hf2
  have hbest : Registry.BestOrd (Registry.mk [("a", fun _ => (1 : Nat)), ("b", fun _ => 2)] [])
      [("b", fun _ => 2), ("a", fun _ => 1)] = 2 := rfl
  rw [hbest] at hb
  simp at hb

/-- Claim C5 as amended: BestName uses the same selection logic as Best,
with the map iteration order of each call's fallback loop explicit. When
some prioritized name is registered, the two agree for any pair of orders:
BestName returns the first such name and Best returns its factory output.
On the fallback path they agree whenever both calls observe the same
iteration order, and unconditionally when exactly one factory is
registered; when none is registered BestName returns the empty string.
Best and BestName are the calls observing the state's own entry order. -/
theorem bestName_agrees_with_best_amended {T : Type} [Inhabited T] (r : Registry T) :
    r.Best = r.BestOrd r.factories ∧
    r.BestName = r.BestNameOrd r.factories ∧
    (∀ n ord1 ord2, firstRegisteredPriority r = some n →
      r.BestNameOrd ord2 = n ∧
      ∃ f, lookupFactory r.factories n = some f ∧ r.BestOrd ord1 = f ()) ∧
    (∀ ord, r.WF → r.factories ≠ [] → ord.Perm r.factories →
      ∃ f, lookupFactory r.factories (r.BestNameOrd ord) = some f ∧ r.BestOrd ord = f ()) ∧
    (∀ e ord1 ord2, r.WF → r.factories = [e] → ord1.Perm r.factories → ord2.Perm r.factories →
      ∃ f, lookupFactory r.factories (r.BestNameOrd ord2) = some f ∧ r.BestOrd ord1 = f ()) ∧
    (r.factories = [] → r.BestName = "" ∧ ∀ ord, ord.Perm r.factories → r.BestNameOrd ord = "") := by
  refine ⟨bestAux_eq_ord r.factories r.priority, bestNameAux_eq_ord r.factories r.priority,
    ?_, ?_, ?_, ?_⟩
  · intro n ord1 ord2 h
    exact ⟨bestNameAuxOrd_of_find_some r.factories ord2 r.priority n h,
      bestAuxOrd_of_find_some r.factories ord1 r.priority n h⟩
  · intro ord hwf hne hperm
    exact bestOrd_same_order_agree r.factories ord r.priority hwf hne hperm
  · intro e ord1 ord2 hwf he hp1 hp2
    rw [he] at hp1 hp2
    rw [List.perm_singleton] at hp1 hp2
    subst hp1
    subst hp2
    exact bestOrd_same_order_agree r.factories [e] r.priority hwf (by simp [he]) (by rw [he])
  · intro h
    constructor
    · show bestNameAux r.factories r.priority = ""
      rw [h]
      exact bestNameAux_empty_factories r.priority
    · intro ord hperm
      rw [h] at hperm
      have hord := List.Perm.eq_nil hperm
      subst hord
      show bestNameAuxOrd r.factories [] r.priority = ""
      rw [h]
      exact bestNameAuxOrd_empty r.priority

/-- Witness for the amended C5: on the priority-hit path a BestName call
and a Best call agree for explicit orders, and on the fallback path two
calls observing the same (swapped) iteration order agree. -/
theorem bestName_agrees_with_best_amended_witness :
    (Registry.BestNameOrd (Registry.mk [("b", fun _ => (3 : Nat))] ["a", "b"])
        [("b", fun _ => (3 : Nat))] = "b" ∧
      ∃ f, lookupFactory (Registry.mk [("b", fun _ => (3 : Nat))] ["a", "b"]).factories "b" =
          some f ∧
        Registry.BestOrd (Registry.mk [("b", fun _ => (3 : Nat))] ["a", "b"])
          [("b", fun _ => (3 : Nat))] = f ()) ∧
    ∃ f, lookupFactory
        (Registry.mk [("a", fun _ => (1 : Nat)), ("b", fun _ => 2)] []).factories
        (Registry.BestNameOrd (Registry.mk [("a", fun _ => (1 : Nat)), ("b", fun _ => 2)] [])
          [("b", fun _ => 2), ("a", fun _ => 1)]) = some f ∧
      Registry.BestOrd (Registry.mk [("a", fun _ => (1 : Nat)), ("b", fun _ => 2)] [])
        [("b", fun _ => 2), ("a", fun _ => 1)] = f () := by
  constructor
  · exact (bestName_agrees_with_best_amended
      (Registry.mk [("b", fun _ => (3 : Nat))] ["a", "b"])).2.2.1
      "b" [("b", fun _ => (3 : Nat))] [("b", fun _ => (3 : Nat))] rfl
  · exact (bestName_agrees_with_best_amended
      (Registry.mk [("a", fun _ => (1 : Nat)), ("b", fun _ => 2)] [])).2.2.2.1
      [("b", fun _ => 2), ("a", fun _ => 1)] (by simp [Registry.WF]) (by simp)
      (List.Perm.swap _ _ _)

/-- Claim C6: for every well-formed (reachable) registry state, Count
equals the length of Available, Available lists exactly the registered
names each exactly once, and well-formedness is preserved by Register and
Unregister and holds for a fresh registry. -/
theorem count_available_invariant {T : Type} (r : Registry T) (h : r.WF) (n : String)
    (f : Factory T) (ps : List String) :
    r.Count = r.Available.length ∧
    r.Available.Nodup ∧
    (∀ m, m ∈ r.Available ↔ r.Has m = true) ∧
    (r.Register n f).WF ∧ (r.Unregister n).WF ∧ (NewRegistry T ps).WF := by
  refine ⟨?_, h, ?_, ?_, ?_, ?_⟩
  · simp [Registry.Count, Registry.Available]
  · intro m
    simpa [Registry.Available, Registry.Has] using mem_keys_iff_lookup_isSome r.factories m
  · exact nodup_keys_insert r.factories n f h
  · exact nodup_keys_delete r.factories n h
  · simp [Registry.WF, NewRegistry]

/-- Witness for C6 at a one-entry registry: the invariant holds and is
preserved by a Register and an Unregister. -/
theorem count_available_invariant_witness :
    Registry.Count (Registry.mk [("a", fun _ => (1 : Nat))] []) =
      (Registry.Available (Registry.mk [("a", fun _ => (1 : Nat))] [])).length ∧
    (Registry.Available (Registry.mk [("a", fun _ => (1 : Nat))] [])).Nodup ∧
    (∀ m, m ∈ Registry.Available (Registry.mk [("a", fun _ => (1 : Nat))] []) ↔
      Registry.Has (Registry.mk [("a", fun _ => (1 : Nat))] []) m = true) ∧
    ((Registry.mk [("a", fun _ => (1 : Nat))] []).Register "b" (fun _ => 2)).WF ∧
    ((Registry.mk [("a", fun _ => (1 : Nat))] []).Unregister "b").WF ∧
    (NewRegistry Nat ["x"]).WF :=
  count_available_invariant (Registry.mk [("a", fun _ => (1 : Nat))] [])
    (by simp [Registry.WF]) "b" (fun _ => 2) ["x"]

/-- Claim C7: Unregister of a registered name removes exactly that entry:
Has becomes false, the name leaves Available, and Count drops by one (on a
well-formed state); Unregister of an absent name leaves the whole registry
state unchanged. Both paths are total, so no error is ever signaled. -/
theorem unregister_removes_or_noop {T : Type} (r : Registry T) (n : String) :
    (r.Has n = true → r.WF →
      (r.Unregister n).Has n = false ∧
      n ∉ (r.Unregister n).Available ∧
      (r.Unregister n).Count + 1 = r.Count) ∧
    (r.Has n = false → r.Unregister n = r) := by
  constructor
  · intro hhas hwf
    refine ⟨?_, ?_, ?_⟩
    · simp [Registry.Has, Registry.Unregister, lookup_delete_self]
    · rw [Registry.Available, Registry.Unregister, mem_keys_iff_lookup_isSome]
      simp [lookup_delete_self]
    · have hsome : (lookupFactory r.factories n).isSome := by
        simpa [Registry.Has] using hhas
      exact length_delete r.factories n hwf hsome
  · intro hhas
    have hnone : lookupFactory r.factories n = none := by
      cases hx : lookupFactory r.factories n with
      | none => rfl
      | some g => rw [Registry.Has, hx] at hhas; simp at hhas
    simp [Registry.Unregister, delete_of_lookup_none r.factories n hnone]

/-- Witness for C7: unregistering the present name of a one-entry registry
empties it, and unregistering an absent name is a no-op. -/
theorem unregister_removes_or_noop_witness :
    (((Registry.mk [("a", fun _ => (1 : Nat))] []).Unregister "a").Has "a" = false ∧
      "a" ∉ ((Registry.mk [("a", fun _ => (1 : Nat))] []).Unregister "a").Available ∧
      ((Registry.mk [("a", fun _ => (1 : Nat))] []).Unregister "a").Count + 1 =
        (Registry.mk [("a", fun _ => (1 : Nat))] []).Count) ∧
    (Registry.mk [("a", fun _ => (1 : Nat))] []).Unregister "b" =
      Registry.mk [("a", fun _ => (1 : Nat))] [] := by
  constructor
  · exact (unregister_removes_or_noop (Registry.mk [("a", fun _ => (1 : Nat))] []) "a").1
      rfl (by simp [Registry.WF])
  · exact (unregister_removes_or_noop (Registry.mk [("a", fun _ => (1 : Nat))] []) "b").2 rfl

/-- Claim C9: the empty string is an ordinary registerable name, so the
empty-string result of BestName is ambiguous: in the registry obtained by
registering a factory under the name given by the empty string, Has of
that name is true and Count is positive, yet BestName returns the empty
string. -/
theorem empty_string_name_ambiguous :
    ((NewRegistry Nat []).Register "" (fun _ => 7)).Has "" = true ∧
    0 < ((NewRegistry Nat []).Register "" (fun _ => 7)).Count ∧
    ((NewRegistry Nat []).Register "" (fun _ => 7)).BestName = "" := by
  refine ⟨rfl, ?_, rfl⟩
  simp [NewRegistry, Registry.Register, Registry.Count, insertFactory]

/-- Claim C10: Register and Unregister have a frame property: for any
other name m, the lookup result, Has and Get at m are unchanged, and the
priority sequence is never modified. -/
theorem register_unregister_frame {T : Type} [Inhabited T] (r : Registry T) (n m : String)
    (f : Factory T) (h : m ≠ n) :
    lookupFactory (r.Register n f).factories m = lookupFactory r.factories m ∧
    (r.Register n f).Has m = r.Has m ∧
    (r.Register n f).Get m = r.Get m ∧
    lookupFactory (r.Unregister n).factories m = lookupFactory r.factories m ∧
    (r.Unregister n).Has m = r.Has m ∧
    (r.Unregister n).Get m = r.Get m ∧
    (r.Register n f).priority = r.priority ∧
    (r.Unregister n).priority = r.priority := by
  have hreg := lookup_insert_ne r.factories n m f h
  have hdel := lookup_delete_ne r.factories n m h
  refine ⟨hreg, ?_, ?_, hdel, ?_, ?_, rfl, rfl⟩
  · simp [Registry.Has, Registry.Register, hreg]
  · simp [Registry.Get, Registry.Register, hreg]
  · simp [Registry.Has, Registry.Unregister, hdel]
  · simp [Registry.Get, Registry.Unregister, hdel]

/-- Witness for C10: registering and unregistering the name b leave the
entry for the distinct name a untouched, and the priority list unchanged. -/
theorem register_unregister_frame_witness :
    lookupFactory ((Registry.mk [("a", fun _ => (1 : Nat))] ["a"]).Register "b"
        (fun _ => 2)).factories "a" =
      lookupFactory (Registry.mk [("a", fun _ => (1 : Nat))] ["a"]).factories "a" ∧
    ((Registry.mk [("a", fun _ => (1 : Nat))] ["a"]).Register "b" (fun _ => 2)).Has "a" =
      (Registry.mk [("a", fun _ => (1 : Nat))] ["a"]).Has "a" ∧
    ((Registry.mk [("a", fun _ => (1 : Nat))] ["a"]).Register "b" (fun _ => 2)).Get "a" =
      (Registry.mk [("a", fun _ => (1 : Nat))] ["a"]).Get "a" ∧
    lookupFactory ((Registry.mk [("a", fun _ => (1 : Nat))] ["a"]).Unregister "b").factories "a" =
      lookupFactory (Registry.mk [("a", fun _ => (1 : Nat))] ["a"]).factories "a" ∧
    ((Registry.mk [("a", fun _ => (1 : Nat))] ["a"]).Unregister "b").Has "a" =
      (Registry.mk [("a", fun _ => (1 : Nat))] ["a"]).Has "a" ∧
    ((Registry.mk [("a", fun _ => (1 : Nat))] ["a"]).Unregister "b").Get "a" =
      (Registry.mk [("a", fun _ => (1 : Nat))] ["a"]).Get "a" ∧
    ((Registry.mk [("a", fun _ => (1 : Nat))] ["a"]).Register "b" (fun _ => 2)).priority =
      (Registry.mk [("a", fun _ => (1 : Nat))] ["a"]).priority ∧
    ((Registry.mk [("a", fun _ => (1 : Nat))] ["a"]).Unregister "b").priority =
      (Registry.mk [("a", fun _ => (1 : Nat))] ["a"]).priority :=
  register_unregister_frame (Registry.mk [("a", fun _ => (1 : Nat))] ["a"]) "b" "a"
    (fun _ => 2) (by decide)
